import Mathlib

/-!
Verification of the crm-email ingestion/reconciliation core against its
natural-language specification.

Shallow embedding of the Python sources:
* `src/crm/cache/chat_cache.py`        → namespace `ChatCache`
* `src/crm/services/event_processing.py`
  and `src/crm/services/embedding_store_service.py` → namespace `Reconciler`
* `src/crm/rabbitmq/consumers.py`      → namespace `Consumer`
* `src/crm/rabbitmq/producers.py` and `rabbitmq.py` → namespace `Producer`
* `src/crm/utils/table_aware_splitter.py` → namespace `Splitter`

Python floats are modelled as rationals (`Rat`); external collaborators
(Redis, Qdrant, pika, tiktoken, the embedder) are modelled as explicit
state or as outcome parameters.  Python exceptions are modelled with
`Except`/`Outcome` values exactly where the source lets them propagate,
and handled exactly where the source has `try`/`except`.
-/

namespace ChatCache

/-- A parsed cached JSON object, as read by `json.loads` in
`chat_cache.py`.  Absent dictionary keys are `none` (the source reads
them with `dict.get(key, default)`).  `payload` stands for the rest of
the cached conversation data, which the cache logic never inspects. -/
structure Entry where
  is_org_wide : Option Bool
  allowed_roles : Option (List String)
  allowed_user_ids : Option (List String)
  embedding : Option (List Rat)
  resource_ids : Option (List String)
  payload : String
deriving DecidableEq, Repr

/-- A raw Redis value: the empty string (falsy in Python), a value on
which `json.loads` raises, or a well-formed JSON object. -/
inductive RVal where
  | emptyVal : RVal
  | malformed : RVal
  | entry : Entry → RVal
deriving DecidableEq, Repr

/-- The Redis store restricted to what the cache uses: key/value pairs,
`scan_iter` enumerating them in list order. -/
abbrev Store := List (String × RVal)

/-- `REDIS_CACHE_PREFIX = "chatcache:"` from `chat_cache.py`. -/
def cachePre : String := "chatcache:"

/-- Python `s.startswith(pre)` (list-level, matching `str` semantics). -/
def startswith (s pre : String) : Bool := pre.data.isPrefixOf s.data

/-- `self.redis.get(key)`: the value stored under `key`, if any. -/
def redis_get (s : Store) (k : String) : Option RVal :=
  (List.find? (fun kv => kv.1 == k) s).map (fun kv => kv.2)

/-- Python truthiness of a Redis value (`if cached_data:` / `if value:`):
the empty string is falsy, everything else read back is truthy. -/
def truthy : RVal → Bool
  | .emptyVal => false
  | .malformed => true
  | .entry _ => true

/-- `ChatCache.check_access`: org-wide flag, then role intersection
(`set(user_roles) & set(allowed_roles)`), then membership of the caller
id in `allowed_user_ids`. -/
def check_access (user_id : String) (user_roles : List String) (r : Entry) : Bool :=
  if r.is_org_wide.getD false then true
  else if user_roles.any (fun ρ => (r.allowed_roles.getD []).contains ρ) then true
  else if (r.allowed_user_ids.getD []).contains user_id then true
  else false

/-- The soft-match loop of `ChatCache.get_conversation`: scan every key
under the `chatcache:` namespace, parse the value inside `try`
(a parse failure hits `except Exception: continue`), skip entries whose
stored embedding is absent or all-zero (`np.array(...).any()`), and
return the first entry passing both the similarity threshold and the
access check.  `simOK q c` stands for the float computation
`self._cosine_similarity(q, c) >= 0.90`. -/
def soft_match (simOK : List Rat → List Rat → Bool) (qe : List Rat)
    (uid : String) (roles : List String) : Store → Option Entry
  | [] => none
  | (k, v) :: rest =>
    if startswith k cachePre then
      if truthy v then
        match v with
        | .entry e =>
          let ce := e.embedding.getD []
          if ce.any (fun x => decide (x ≠ 0)) then
            if simOK qe ce && check_access uid roles e then some e
            else soft_match simOK qe uid roles rest
          else soft_match simOK qe uid roles rest
        | _ => soft_match simOK qe uid roles rest
      else soft_match simOK qe uid roles rest
    else soft_match simOK qe uid roles rest

/-- `ChatCache.get_conversation`.  The exact-key branch runs
`json.loads(cached_data)` with no surrounding `try`, so a malformed
value at the exact key propagates an exception (`Except.error`);
an access-denied well-formed hit falls through to the soft-match scan.
The cache key itself is produced upstream by sha256 hashing of the
rounded query embedding (`generate_cache_key`), modelled as an opaque
input. -/
def get_conversation (simOK : List Rat → List Rat → Bool) (s : Store)
    (cache_key : String) (qe : List Rat) (uid : String) (roles : List String) :
    Except Unit (Option Entry) :=
  match redis_get s cache_key with
  | some v =>
    if truthy v then
      match v with
      | .malformed => .error ()
      | .entry e =>
        if check_access uid roles e then .ok (some e)
        else .ok (soft_match simOK qe uid roles s)
      | .emptyVal => .ok (soft_match simOK qe uid roles s)
    else .ok (soft_match simOK qe uid roles s)
  | none => .ok (soft_match simOK qe uid roles s)

/-- `self.redis.set(key, value)`: overwrite in place if the key exists,
append otherwise. -/
def redis_set (s : Store) (k : String) (v : RVal) : Store :=
  if (List.find? (fun kv => kv.1 == k) s).isSome then
    s.map (fun kv => if kv.1 == k then (k, v) else kv)
  else s ++ [(k, v)]

/-- The `conversation_data = {}` default of `ChatCache.set_conversation`:
an empty JSON object, carrying none of the access-scope keys. -/
def empty_conversation_data : Entry :=
  { is_org_wide := none, allowed_roles := none, allowed_user_ids := none,
    embedding := none, resource_ids := none, payload := "" }

/-- `conversation_data["embedding"] = embedding.tolist()` before the
write in `set_conversation`. -/
def stored_entry (data : Entry) (emb : List Rat) : Entry :=
  { data with embedding := some emb }

/-- `ChatCache.set_conversation`: attach the query embedding to the
conversation data and write it under the derived cache key
(`conversation_data` defaults to the empty object). -/
def set_conversation (s : Store) (cache_key : String) (data : Option Entry)
    (emb : List Rat) : Store :=
  redis_set s cache_key (.entry (stored_entry (data.getD empty_conversation_data) emb))

/-- Whether `invalidate_cache_by_resource_id` collects this key: it must
be in the scanned namespace, hold a truthy value that parses
(`except Exception: continue` skips malformed values), and its
`resource_ids` list must contain the resource id. -/
def inv_matches (rid : String) (kv : String × RVal) : Bool :=
  startswith kv.1 cachePre && truthy kv.2 &&
    (match kv.2 with
     | .entry e => (e.resource_ids.getD []).contains rid
     | _ => false)

/-- The `keys_to_delete` list collected by the scan of
`invalidate_cache_by_resource_id`. -/
def inv_keys (rid : String) (s : Store) : List String :=
  (s.filter (inv_matches rid)).map (fun kv => kv.1)

/-- `ChatCache.invalidate_cache_by_resource_id`: scan the namespace,
collect every key whose dependency list contains `rid`, then delete the
collected keys in one call.  Returns the new store and the number of
deleted keys (`len(keys_to_delete)`, which the source logs). -/
def invalidate_cache_by_resource_id (rid : String) (s : Store) : Store × Nat :=
  if (inv_keys rid s).isEmpty then (s, 0)
  else (s.filter (fun kv => !((inv_keys rid s).contains kv.1)), (inv_keys rid s).length)

/-- The cached entry of the access-control scenario in the spec:
`is_org_wide=false`, `allowed_roles=["admin"]`, `allowed_user_ids=["u1"]`. -/
def adminEntry (emb : List Rat) (pl : String) (rids : Option (List String)) : Entry :=
  { is_org_wide := some false, allowed_roles := some ["admin"],
    allowed_user_ids := some ["u1"], embedding := some emb,
    resource_ids := rids, payload := pl }

/-- A stored value that is a well-formed entry carrying none of the
three access-scope keys — exactly what `set_conversation` writes when
`conversation_data` lacks them. -/
def scopeless (v : RVal) : Prop :=
  ∃ e : Entry, v = .entry e ∧ e.is_org_wide = none ∧
    e.allowed_roles = none ∧ e.allowed_user_ids = none

end ChatCache

namespace Reconciler

/-- A chunk payload from the wire map `chunks: {"0": {...}, ...}`:
either a JSON object (of which the reconciler reads only `text` and
`content`; `rest` stands for the remaining keys) or a primitive value,
which `store_received_embeddings` stringifies. -/
inductive ChunkVal where
  | dict : Option String → Option String → String → ChunkVal
  | prim : String → ChunkVal
deriving DecidableEq, Repr

/-- Python `a or b` on an optional string: `None` and `""` are falsy. -/
def pyOrS (a : Option String) (b : String) : String :=
  match a with
  | some s => if s = "" then b else s
  | none => b

/-- `chunk.get("text") or chunk.get("content") or ""` for dict chunks,
`str(chunk)` otherwise (from `store_received_embeddings`). -/
def chunk_text_value : ChunkVal → String
  | .dict t c _ => pyOrS t (pyOrS c "")
  | .prim s => s

/-- Python `str.lower()` (ASCII suffices for the statuses used here). -/
def pyLower (s : String) : String := ⟨s.data.map Char.toLower⟩

/-- Python `int(s)` on a digit string: decimal value. -/
def pyInt (s : String) : Nat :=
  s.data.foldl (fun a c => 10 * a + (c.toNat - 48)) 0

/-- The sort key `int(item[0]) if str(item[0]).isdigit() else item[0]`
from `process_embedding_response` / `store_received_embeddings`
(`str.isdigit` is true on non-empty all-digit strings). -/
def pyKey (s : String) : Nat ⊕ String :=
  if s ≠ "" ∧ s.data.all Char.isDigit then .inl (pyInt s) else .inr s

/-- Comparison of HOMOGENEOUS sort keys: Python compares numbers with
numbers and strings with strings.  Comparing a number with a string
raises `TypeError`; that raising path is modelled by `keys_mixed` /
`sort_chunk_items_checked` below, which guard every use of the sort, so
the two cross-type branches here (an arbitrary totalisation) are never
semantically relevant. -/
def keyLeB : Nat ⊕ String → Nat ⊕ String → Bool
  | .inl a, .inl b => decide (a ≤ b)
  | .inl _, .inr _ => true
  | .inr _, .inl _ => false
  | .inr a, .inr b => decide (a ≤ b)

/-- Order on chunk items: by `pyKey` of the map key. -/
def itemLe (a b : String × ChunkVal) : Prop :=
  keyLeB (pyKey a.1) (pyKey b.1) = true

instance : DecidableRel itemLe := fun _ _ =>
  inferInstanceAs (Decidable (_ = true))

instance : IsTotal (String × ChunkVal) itemLe where
  total a b := by
    unfold itemLe
    generalize pyKey a.1 = x
    generalize pyKey b.1 = y
    rcases x with n | s <;> rcases y with m | t <;> simp [keyLeB]
    · exact Nat.le_total n m
    · exact le_total s.data t.data

instance : IsTrans (String × ChunkVal) itemLe where
  trans a b c hab hbc := by
    unfold itemLe at *
    generalize hx : pyKey a.1 = x at *
    generalize hy : pyKey b.1 = y at *
    generalize hz : pyKey c.1 = z at *
    rcases x with n | s <;> rcases y with m | t <;> rcases z with p | u <;>
      simp [keyLeB] at * <;> try exact le_trans hab hbc

/-- The sorted order produced by `chunk_items.sort(key=...)` when the
sort succeeds: Python `list.sort` is a stable sort by the key, modelled
with insertion sort under `itemLe`.  Only meaningful on key sets of one
kind; the raising mixed case is handled by `sort_chunk_items_checked`. -/
def sort_chunk_items (l : List (String × ChunkVal)) : List (String × ChunkVal) :=
  l.insertionSort itemLe

/-- Whether the key set mixes numeric (`int(k)`) and string keys.  To
order an int-keyed item relative to a str-keyed one, any comparison
sort must at some point compare an int key with a str key (same-type
comparisons cannot bridge the two groups), so CPython's `list.sort`
raises `TypeError` exactly when both kinds are present. -/
def keys_mixed (l : List (String × ChunkVal)) : Bool :=
  (l.any (fun it => (pyKey it.1).isLeft)) && (l.any (fun it => (pyKey it.1).isRight))

/-- `chunk_items.sort(key=lambda item: int(item[0]) if
str(item[0]).isdigit() else item[0])`, with its failure mode: a mixed
digit/non-digit key set raises `TypeError` (`Except.error`), otherwise
the list is sorted by key. -/
def sort_chunk_items_checked (l : List (String × ChunkVal)) :
    Except Unit (List (String × ChunkVal)) :=
  if keys_mixed l then .error () else .ok (sort_chunk_items l)

/-- The `meta` dictionary that `store_received_embeddings` merges into
every point payload (its keys never collide with the point fields). -/
structure MetaD where
  user_id : Option String
  organization_id : Option String
  embedding_model : String
  processing_time : Rat
  status : String
  file_name : Option String
  file_path : Option String
  service_name : String
deriving DecidableEq, Repr

/-- A parsed `EmbeddingResponse` (model `rabbitmq_event_models.py`):
`chunks` keeps the dict items in insertion order (the wire map carries
no inherent order), embeddings are float vectors. -/
structure EmbeddingResp where
  resource_id : String
  embeddings : List (List Rat)
  chunks : List (String × ChunkVal)
  status : String
  service_name : String
  user_id : Option String
  organization_id : Option String
  model_name : Option String
  processing_time : Option Rat
  file_name : Option String
  file_path : Option String
  error : Option String
deriving Repr

/-- A Qdrant `PointStruct` as built by `QdrantEmbeddingStore.store`:
generated id, vector, and the payload fields. -/
structure Point where
  pid : String
  vector : List Rat
  resource_id : String
  chunk_id : Nat
  chunk_index : Nat
  total_chunks : Nat
  text : String
  timestamp : Nat
  embedding_dimension : Nat
  file_name : Option String
  file_path : Option String
  meta : Option MetaD
deriving DecidableEq, Repr

/-- Python truthiness of an optional string (`if file_name:` etc.). -/
def truthyS : Option String → Bool
  | some s => s ≠ ""
  | none => false

/-- The `PointStruct` built at index `i` of the upsert loop of
`QdrantEmbeddingStore.store` (vector and text read from the input
lists, `rid` the resolved resource id, `total` the overlap size). -/
def store_point (uuidGen : Nat → String) (ts : Nat) (rid : String)
    (file_name file_path : Option String) (metadata : Option MetaD)
    (embeddings : List (List Rat)) (chunks : List String)
    (total i : Nat) : Point :=
  { pid := uuidGen i, vector := embeddings.getD i [], resource_id := rid,
    chunk_id := i, chunk_index := i, total_chunks := total,
    text := chunks.getD i "", timestamp := ts,
    embedding_dimension := (embeddings.getD i []).length,
    file_name := if truthyS file_name then file_name else none,
    file_path := if truthyS file_path then file_path else none,
    meta := metadata }

/-- `resource_id or uuid.uuid4().hex`: fall back to a fresh id when the
given one is absent or empty. -/
def resolve_rid (resource_id : Option String) (freshRid : String) : String :=
  match resource_id with
  | some r => if r = "" then freshRid else r
  | none => freshRid

/-- `QdrantEmbeddingStore.store`: validate inputs, lazily ensure the
collection (its failure is swallowed by `except ... logger.warning`),
build one point per index of the overlapping prefix
`min(len(embeddings), len(chunks))`, skipping empty vectors, and upsert
them in one batched call.  `uuidGen i` models `uuid.uuid4().hex` for the
i-th generated point, `freshRid` the one generated when `resource_id`
is falsy, `ts` the server timestamp, and `upsertOk` whether the batched
`client.upsert` call succeeds — its failure propagates
(`Except.error`), failing the whole reconciliation with nothing
persisted.  Returns the count and the list of upserted points. -/
def store (upsertOk : Bool) (uuidGen : Nat → String) (freshRid : String) (ts : Nat)
    (embeddings : List (List Rat)) (chunks : List String)
    (resource_id : Option String) (file_name file_path : Option String)
    (metadata : Option MetaD) : Except Unit (Nat × List Point) :=
  if embeddings.isEmpty then .ok (0, [])
  else if chunks.isEmpty then .ok (0, [])
  else
    let rid := resolve_rid resource_id freshRid
    let total := min embeddings.length chunks.length
    let points := (List.range total).filterMap (fun i =>
      if (embeddings.getD i []).isEmpty then none
      else some (store_point uuidGen ts rid file_name file_path metadata
        embeddings chunks total i))
    if points.isEmpty then .ok (0, [])
    else if upsertOk then .ok (points.length, points)
    else .error ()

/-- The `meta` dict built in `store_received_embeddings`. -/
def mkMeta (r : EmbeddingResp) : MetaD :=
  { user_id := r.user_id, organization_id := r.organization_id,
    embedding_model := pyOrS r.model_name "unknown",
    processing_time := r.processing_time.getD 0,
    status := if r.status = "" then "success" else r.status,
    file_name := r.file_name, file_path := r.file_path,
    service_name := r.service_name }

/-- `EventProcessor.store_received_embeddings`: sort the chunk map by
numeric key, extract chunk texts, keep only the `zip`-truncated pairs
whose vector is a non-empty list of numbers (entries of `List Rat` are
numbers by construction), and hand them to `store`.  Its own
`except ... raise` re-raises, so a `store` failure propagates. -/
def store_received_embeddings (upsertOk : Bool) (uuidGen : Nat → String)
    (freshRid : String) (ts : Nat) (r : EmbeddingResp) :
    Except Unit (List Point) :=
  match sort_chunk_items_checked r.chunks with
  | .error _ => .error ()
  | .ok chunk_items =>
    let chunk_payloads := chunk_items.map (fun it => it.2)
    let chunk_texts := chunk_payloads.map chunk_text_value
    let pairs := r.embeddings.zip chunk_texts
    let valid := pairs.filter (fun p => !p.1.isEmpty)
    let valid_embeddings := valid.map (fun p => p.1)
    let valid_chunks := valid.map (fun p => p.2)
    (store upsertOk uuidGen freshRid ts valid_embeddings valid_chunks
      (some r.resource_id) r.file_name r.file_path (some (mkMeta r))).map
      (fun c => c.2)

/-- `EventProcessor.process_embedding_response`: reject unless the
lower-cased status (`status or "success"`) is success/partial; then
sort the chunk items (a mixed digit/non-digit key set raises
`TypeError` here, caught by the outer `except` — rejection with nothing
persisted and no mismatch warning, which is only logged later); reject
when embeddings or the sorted chunk payloads are empty; tolerate count
mismatches with a warning; then persist through
`store_received_embeddings`.  The whole body sits in
`try ... except Exception: return False`, so a persistence failure
yields `False` with nothing upserted.  Returns the success flag and the
list of upserted points (empty when no upsert happened). -/
def process_embedding_response (upsertOk : Bool) (uuidGen : Nat → String)
    (freshRid : String) (ts : Nat) (r : EmbeddingResp) : Bool × List Point :=
  let status := pyLower (if r.status = "" then "success" else r.status)
  if ¬(status = "success" ∨ status = "partial") then (false, [])
  else
    match sort_chunk_items_checked r.chunks with
    | .error _ => (false, [])
    | .ok chunk_items =>
      let chunk_payloads := chunk_items.map (fun it => it.2)
      if r.embeddings.isEmpty ∨ chunk_payloads.isEmpty then (false, [])
      else
        match store_received_embeddings upsertOk uuidGen freshRid ts r with
        | .ok pts => (true, pts)
        | .error _ => (false, [])

/-- Decimal digit character (`'0'`–`'9'`). -/
def digitChar : Nat → Char
  | 0 => '0' | 1 => '1' | 2 => '2' | 3 => '3' | 4 => '4'
  | 5 => '5' | 6 => '6' | 7 => '7' | 8 => '8' | _ => '9'

/-- Decimal digits of `n`, most significant first (`fuel > n` makes the
recursion total and exact). -/
def decDigits (fuel : Nat) (n : Nat) : List Char :=
  match fuel with
  | 0 => []
  | f + 1 => if n < 10 then [digitChar n] else decDigits f (n / 10) ++ [digitChar (n % 10)]

/-- The decimal digit string of `n`, i.e. the chunk key `str(i)` the
embedding worker uses for the i-th chunk. -/
def decStr (n : Nat) : String := ⟨decDigits (n + 1) n⟩

/-- The chunk map of an N-chunk resource in original order: keys are
the decimal digit strings `"0" … "N-1"`. -/
def canonical_chunks (N : Nat) (c : Nat → ChunkVal) : List (String × ChunkVal) :=
  (List.range N).map (fun i => (decStr i, c i))

/-- Decimal value of a digit list (so that `pyInt s = digitsVal s.data`
definitionally). -/
def digitsVal (l : List Char) : Nat :=
  l.foldl (fun a c => 10 * a + (c.toNat - 48)) 0

/-- `itemLe` strengthened with key distinctness: an antisymmetric
relation under which a sorted permutation is unique. -/
def itemLeS (a b : String × ChunkVal) : Prop :=
  itemLe a b ∧ (pyKey a.1 ≠ pyKey b.1 ∨ a = b)

/-- The count-mismatch scenario of the spec: 3 embeddings against a
2-entry chunk map (keys deliberately out of insertion order). -/
def resp3 : EmbeddingResp :=
  { resource_id := "r1", embeddings := [[1], [2], [3]],
    chunks := [("1", .dict (some "b") none ""), ("0", .dict (some "a") none "")],
    status := "success", service_name := "svc", user_id := none,
    organization_id := none, model_name := none, processing_time := none,
    file_name := none, file_path := none, error := none }

/-- A 3-chunk response whose chunk map arrives in scrambled key order. -/
def resp4 : EmbeddingResp :=
  { resource_id := "r1", embeddings := [[1], [2], [3]],
    chunks := [("2", .prim "two"), ("0", .prim "zero"), ("1", .prim "one")],
    status := "success", service_name := "svc", user_id := none,
    organization_id := none, model_name := none, processing_time := none,
    file_name := none, file_path := none, error := none }

/-- The original chunk order behind `resp4`. -/
def c4chunk : Nat → ChunkVal
  | 0 => .prim "zero"
  | 1 => .prim "one"
  | _ => .prim "two"

/-- A response whose wire status is the empty string: falsy in Python,
so `status or "success"` silently defaults it to success. -/
def resp5 : EmbeddingResp := { resp3 with status := "" }

end Reconciler

namespace Consumer

/-- A parsed JSON value delivered on the bus (the result of a
successful `json.loads(body)`). -/
inductive PyVal where
  | pstr : String → PyVal
  | pint : Int → PyVal
  | pbool : Bool → PyVal
  | pnone : PyVal
  | plist : List PyVal → PyVal
  | pdict : List (String × PyVal) → PyVal

/-- The outcome of running a piece of Python code: a value, or a raised
exception. -/
inductive Outcome (α : Type) where
  | ok : α → Outcome α
  | exn : Outcome α

/-- Equality test used for `event in EVENTS`-style comparisons: only
like-typed primitives compare equal (containers never occur as event
discriminators in the claims below). -/
instance : BEq PyVal := ⟨fun a b =>
  match a, b with
  | .pstr s, .pstr t => s == t
  | .pint n, .pint p => n == p
  | .pbool x, .pbool y => x == y
  | .pnone, .pnone => true
  | _, _ => false⟩

/-- Dictionary lookup (`d.get(k)` / `k in d`). -/
def dictGet (fs : List (String × PyVal)) (k : String) : Option PyVal :=
  (List.find? (fun kv => kv.1 == k) fs).map (fun kv => kv.2)

/-- `EVENTS` from `configs/constant.py`. -/
def EVENTS : List String :=
  ["create_embedding", "batch_embedding", "edit_embedding",
   "delete_embedding", "embedding_response", "event_response"]

/-- The fields of `ResourceEvent` (pydantic, `rabbitmq_event_models.py`)
that `process_message` goes on to use. -/
structure ResourceEventM where
  event : Option String
  resource_id : String
  service_name : String
  extraction_type : String
  user_id : String
  organization_id : String
  file_name : String
  file_path : String
  file_type : Option String

/-- `ResourceEvent(**message)`: pydantic validation requires the alias
keys `id`, `service_name`, `extraction_type`, `user_id`,
`organization_id`, `resource_name`, `resource_path` to be present as
strings; `event` and `file_type` are optional.  A validation failure is
caught by the inner `try` of `process_message`, which then returns with
`success = False`. -/
def parse_resource_event (m : PyVal) : Option ResourceEventM :=
  match m with
  | .pdict fs =>
    match dictGet fs "id", dictGet fs "service_name", dictGet fs "extraction_type",
      dictGet fs "user_id", dictGet fs "organization_id",
      dictGet fs "resource_name", dictGet fs "resource_path" with
    | some (.pstr rid), some (.pstr sn), some (.pstr ex), some (.pstr uid),
      some (.pstr oid), some (.pstr fn), some (.pstr fp) =>
      some { event := match dictGet fs "event" with
               | some (.pstr e) => some e
               | _ => none,
             resource_id := rid, service_name := sn, extraction_type := ex,
             user_id := uid, organization_id := oid,
             file_name := fn, file_path := fp,
             file_type := match dictGet fs "file_type" with
               | some (.pstr t) => some t
               | _ => none }
    | _, _, _, _, _, _, _ => none
  | _ => none

/-- `EventProcessor._determine_file_type` (input already lower-cased
with query parameters stripped by the caller). -/
def determine_file_type (fp : String) : String :=
  if fp = "" then "zeta"
  else if ".pdf".data.isSuffixOf fp.data then "pdf"
  else if ".docx".data.isSuffixOf fp.data then "docx"
  else "zeta"

/-- `EventProcessor._route_event`: dispatch the lifecycle event to the
orchestrator services.  `svc` gives the outcome of each service call
(`pipeline.process_upload`, `delete_service.delete_embeddings`,
`pipeline.process_edit` — external collaborators that may raise).
Unknown events return `True` untouched. -/
def route_event (svc : String → Outcome Unit) (event : String) : Outcome Bool :=
  if event = "upload_resource" ∨ event = "create_resource" then
    match svc "upload" with | .ok _ => .ok true | .exn => .exn
  else if event = "delete_resource" then
    match svc "delete" with | .ok _ => .ok true | .exn => .exn
  else if event = "edit_resource" then
    match svc "edit" with | .ok _ => .ok true | .exn => .exn
  else .ok true

/-- The `try` block of `EventProcessor.process_message`.  `embedOK`
stands for the return value of `process_embedding_response`, whose own
body catches every exception and returns a `bool` (see the `Reconciler`
model); the create/batch embedding events are only logged.  For
lifecycle events, a `ResourceEvent` validation failure or a missing
event type returns `success = False`; an exception raised by the routed
service propagates out of the block. -/
def process_message_try (svc : String → Outcome Unit) (embedOK : Bool)
    (m : PyVal) : Outcome Bool :=
  let event_key : Option PyVal :=
    match m with | .pdict fs => dictGet fs "event" | _ => none
  let isE (s : String) : Bool := event_key == some (.pstr s)
  if isE "embedding_response" || isE "event_response" || isE "embeddi_response" then
    .ok embedOK
  else if isE "create_embedding" || isE "batch_embedding" then
    .ok true
  else
    match parse_resource_event m with
    | none => .ok false
    | some ev =>
      let lowered : String := ⟨ev.file_path.data.map Char.toLower⟩
      let base : String := ⟨lowered.data.takeWhile (fun c => c ≠ '?')⟩
      let _file_type := match ev.file_type with
        | some t => if t = "" then determine_file_type base else t
        | none => determine_file_type base
      match ev.event with
      | none => .ok false
      | some e => if e = "" then .ok false else route_event svc e

/-- `EventProcessor.process_message`.  Its `try` body may raise and its
`except` clause re-raises, but the `finally` clause executes
`return success, processing_time`: by Python semantics a `return` in
`finally` discards the in-flight exception, so the function always
returns, with `success` still `False` when the handler raised. -/
def process_message (svc : String → Outcome Unit) (embedOK : Bool)
    (m : PyVal) : Bool :=
  match process_message_try svc embedOK m with
  | .ok b => b
  | .exn => false

/-- What the consumer callback does with a delivery. -/
inductive Action where
  | ack : Action
  | nackNoRequeue : Action
deriving DecidableEq, Repr

/-- `payload["event"]`: subscripting a non-dict with a string raises
`TypeError`; the dict case is reached only after the
`"event" not in message` guard, so the key is present. -/
def subscript_event (m : PyVal) : Outcome PyVal :=
  match m with
  | .pdict fs =>
    match dictGet fs "event" with
    | some v => .ok v
    | none => .exn
  | _ => .exn

/-- `RabbitMQConsumer._process_message_sync`: fallback for events not in
`EVENTS`; lifecycle events are dispatched to `process_message` and
acknowledged, unknown events permanently rejected; any exception inside
is caught and converted to a permanent reject. -/
def process_message_sync (svc : String → Outcome Unit) (embedOK : Bool)
    (m : PyVal) : Action :=
  match (match m with
         | .pdict fs => Outcome.ok (dictGet fs "event")
         | _ => Outcome.exn) with
  | .exn => .nackNoRequeue
  | .ok evOpt =>
    let isE (s : String) : Bool := evOpt == some (.pstr s)
    if isE "create_resource" || isE "upload_resource" || isE "edit_resource" then
      let _ := process_message svc embedOK m
      .ack
    else if isE "delete_resource" then
      let _ := process_message svc embedOK m
      .ack
    else .nackNoRequeue

/-- `RabbitMQConsumer.callback`: `body = none` models a
`json.JSONDecodeError` (permanent reject); a dict without an `event`
key is permanently rejected; events in `EVENTS` are dispatched to
`process_message` and acknowledged (since `process_message` always
returns, see above); other events fall to `_process_message_sync`; any
exception inside the `try` (e.g. subscripting a non-dict payload) is
caught and converted to a permanent reject. -/
def callback (svc : String → Outcome Unit) (embedOK : Bool)
    (body : Option PyVal) : Action :=
  match body with
  | none => .nackNoRequeue
  | some m =>
    let noEvent : Bool :=
      match m with
      | .pdict fs => !(dictGet fs "event").isSome
      | _ => false
    if noEvent then .nackNoRequeue
    else
      match subscript_event m with
      | .exn => .nackNoRequeue
      | .ok ev =>
        let inEvents : Bool :=
          match ev with
          | .pstr e => EVENTS.contains e
          | _ => false
        if inEvents then
          let _ := process_message svc embedOK m
          .ack
        else process_message_sync svc embedOK m

/-- A well-formed `upload_resource` lifecycle message whose routed
handler raises: the failing input of the acknowledgement analysis. -/
def uploadMsg : PyVal :=
  .pdict [("event", .pstr "upload_resource"), ("id", .pstr "r1"),
          ("service_name", .pstr "svc"), ("extraction_type", .pstr "text"),
          ("user_id", .pstr "u1"), ("organization_id", .pstr "o1"),
          ("resource_name", .pstr "f.pdf"), ("resource_path", .pstr "/tmp/f.pdf")]

/-- A service layer in which every handler call raises. -/
def svcRaises : String → Outcome Unit := fun _ => .exn

/-- An `embedding_response` message (the reconciler path). -/
def embedMsg : PyVal :=
  .pdict [("event", .pstr "embedding_response"), ("id", .pstr "r1"),
          ("service_name", .pstr "svc"), ("status", .pstr "success")]

end Consumer

namespace Producer

/-- Outcomes of the pika operations a publish may perform.  Each field
gives the success of that operation when attempted during one call
(`connectOk`: `pika.BlockingConnection`, `channelOk`:
`connection.channel()`, `declareOk`: `exchange_declare`, `publishOk`:
`basic_publish`). -/
structure Env where
  connectOk : Bool
  channelOk : Bool
  declareOk : Bool
  publishOk : Bool

/-- `RabbitMQConnection` state: the connection handle (`some closed`
records its `is_closed` flag) and the `is_initialized` flag. -/
structure ConnSt where
  connection : Option Bool
  is_initialized : Bool
deriving DecidableEq, Repr

/-- `RabbitMQConnection.initialize`: idempotent when an open connection
exists; otherwise attempt to connect inside `try` — on failure the
`except` clause clears the state and reports unavailability without
raising. -/
def conn_initialize (env : Env) (c : ConnSt) : ConnSt :=
  if c.is_initialized ∧ c.connection = some false then c
  else if env.connectOk then { connection := some false, is_initialized := true }
  else { connection := none, is_initialized := false }

/-- `RabbitMQConnection.get_connection`: reinitialize if the handle is
absent, closed, or the manager is uninitialized; return the handle. -/
def conn_get_connection (env : Env) (c : ConnSt) : ConnSt × Option Bool :=
  let needsInit : Bool :=
    !c.is_initialized ||
      (match c.connection with | none => true | some closed => closed)
  let c2 := if needsInit then conn_initialize env c else c
  (c2, c2.connection)

/-- `RabbitMQConnection.close`: close an open connection (a failure of
`connection.close()` is caught; the `finally` clause always resets the
state); with no open connection the state is left as is. -/
def conn_close (c : ConnSt) : ConnSt :=
  match c.connection with
  | some false => { connection := none, is_initialized := false }
  | _ => c

/-- `RabbitMQProducer` state: its connection manager and its channel
handle (`some closed` records `is_closed`). -/
structure ProdSt where
  cm : ConnSt
  channel : Option Bool
deriving DecidableEq, Repr

/-- `RabbitMQProducer.get_channel`: reuse an open channel; otherwise,
inside `try`, fetch a connection (`if not connection: return None`),
open a channel and declare the durable direct exchange — any failure is
caught, the channel discarded and `None` returned.  Opening a channel
on a closed-but-present connection handle raises and is likewise
caught. -/
def get_channel (env : Env) (p : ProdSt) : ProdSt × Option Bool :=
  let needNew : Bool :=
    match p.channel with | none => true | some closed => closed
  if needNew then
    let (cm2, conn) := conn_get_connection env p.cm
    match conn with
    | none => ({ cm := cm2, channel := p.channel }, none)
    | some closed =>
      if env.channelOk ∧ ¬closed then
        if env.declareOk then ({ cm := cm2, channel := some false }, some false)
        else ({ cm := cm2, channel := none }, none)
      else ({ cm := cm2, channel := none }, none)
  else (p, p.channel)

/-- `RabbitMQProducer.publish_message`: fetch a channel (give up with a
log line when unavailable); attempt `basic_publish` with persistent
delivery inside `try` — on failure the `except` clause discards the
channel and re-establishes the connection (`close` then `initialize`),
so the next call reconnects lazily.  No branch re-raises: the model
returns `Except.error` exactly where the source would propagate an
exception, and no branch does. -/
def publish_message (env : Env) (p : ProdSt) : Except Unit ProdSt :=
  let res := get_channel env p
  match res.2 with
  | none => .ok res.1
  | some _ =>
    if env.publishOk then .ok res.1
    else .ok { cm := conn_initialize env (conn_close res.1.cm), channel := none }

end Producer

namespace Splitter

/-- Text is modelled as a list of characters; Python slices `s[a:b]`
become `drop`/`take`. -/
def slice (l : List Char) (a b : Nat) : List Char := (l.drop a).take (b - a)

/-- Python `str.strip()` (whitespace at both ends). -/
def pyStrip (l : List Char) : List Char :=
  ((l.dropWhile Char.isWhitespace).reverse.dropWhile Char.isWhitespace).reverse

/-- Python `hay.find(sub)`: index of the first occurrence, if any
(`str.find` returns -1 when absent). -/
def pyFind (hay sub : List Char) : Option Nat :=
  match hay with
  | [] => if sub.isEmpty then some 0 else none
  | _ :: t => if sub.isPrefixOf hay then some 0 else (pyFind t sub).map (fun i => i + 1)

/-- `TableAwareTextSplitter` configuration.  `count` models
`count_tokens` (tiktoken, or the `len(text) // 4` fallback); `truncate`
models `_split_at_token_limit` for the configured `max_tokens` (its
tiktoken encode/take/decode round trip, or the `text[:max_tokens * 4]`
fallback); `fill80` models the float comparison
`token_count >= self.max_tokens * 0.8`; `pct30` models
`int(len(remaining) * 0.3)` in float arithmetic. -/
structure Cfg where
  maxTokens : Nat
  contextWindowTokens : Nat
  count : List Char → Nat
  truncate : List Char → List Char
  fill80 : Nat → Bool
  pct30 : Nat → Nat

/-- The separators of `_character_based_split`, in priority order. -/
def separators : List (List Char) :=
  ["\n\n## ".data, "\n\n### ".data, "\n\n".data, ". ".data, " ".data]

/-- One pass over the separator list in `_character_based_split`: the
first separator whose head part (plus the separator) fits the token
limit and either starts the chunk list or fills at least 80% of it
becomes the chunk (`split(sep, 1)` has two parts iff the separator
occurs). -/
def pickSep (cfg : Cfg) (chunksEmpty : Bool) (remaining : List Char) :
    List (List Char) → Option (List Char)
  | [] => none
  | sep :: rest =>
    match pyFind remaining sep with
    | some i =>
      let potential := remaining.take i ++ sep
      let tc := cfg.count potential
      if tc ≤ cfg.maxTokens ∧ (chunksEmpty ∨ cfg.fill80 tc) then some potential
      else pickSep cfg chunksEmpty remaining rest
    | none => pickSep cfg chunksEmpty remaining rest

/-- The `while` loop of `_character_based_split`.  On each iteration:
pick the best separator chunk (default: all remaining text), force a
token-limit cut when over budget, append the stripped chunk, advance;
the anti-loop guard (`len(remaining) >= len(text)`) extends the chunk
list with the characters of the truncated remainder (Python
`list.extend` over a `str` iterates characters) and breaks; the
emergency counter breaks after 1000 chunks, so 1002 fuel is never
exhausted. -/
def cbsLoop (cfg : Cfg) (text0 : List Char) :
    Nat → Nat → List (List Char) → List Char → Option (List (List Char))
  | 0, _, _, _ => none
  | f + 1, chunkId, acc, remaining =>
    if pyStrip remaining = [] then some acc
    else
      let best0 := (pickSep cfg acc.isEmpty remaining separators).getD remaining
      let best := if cfg.count best0 > cfg.maxTokens then cfg.truncate remaining else best0
      let acc2 := acc ++ [pyStrip best]
      let rem2 := pyStrip (remaining.drop best.length)
      if rem2.length ≥ text0.length then
        some (acc2 ++ (cfg.truncate rem2).map (fun c => [c]))
      else if chunkId + 1 > 1000 then some acc2
      else cbsLoop cfg text0 f (chunkId + 1) acc2 rem2

/-- `TableAwareTextSplitter._character_based_split`. -/
def character_based_split (cfg : Cfg) (text : List Char) : Option (List (List Char)) :=
  if pyStrip text = [] then some []
  else (cbsLoop cfg text 1002 0 [] text).map
    (List.filter (fun c => !(pyStrip c).isEmpty))

/-- The `while remainder:` loop of
`_split_context_with_table_intact`.  When the table substring occurs in
the remainder: try the table plus half a token budget of trailing
context; if even that does not fit, emit the pre-table context
(splitting it if oversized) and then — only when text remains after the
table — emit the table with 30% of the trailing context; when nothing
follows the table, the remainder is cleared without the table ever
being appended.  The fuel bounds the number of iterations (`none`
models a run exceeding it; the claims below finish in two). -/
def scwtiLoop (cfg : Cfg) (tableSub : List Char) :
    Nat → List (List Char) → List Char → Option (List (List Char))
  | 0, _, _ => none
  | f + 1, acc, remainder =>
    if remainder = [] then some acc
    else
      match pyFind remainder tableSub with
      | none =>
        if cfg.count remainder ≤ cfg.maxTokens then some (acc ++ [remainder])
        else
          let chunk := cfg.truncate remainder
          scwtiLoop cfg tableSub f (acc ++ [chunk]) (remainder.drop chunk.length)
      | some tsc =>
        let tec := tsc + tableSub.length
        let potential_end := min remainder.length (tec + cfg.maxTokens / 2)
        let potential := remainder.take potential_end
        if cfg.count potential ≤ cfg.maxTokens then
          scwtiLoop cfg tableSub f (acc ++ [potential]) (remainder.drop potential_end)
        else
          let pre := pyStrip (remainder.take tsc)
          let accPre : Option (List (List Char)) :=
            if pre = [] then some acc
            else if cfg.count pre ≤ cfg.maxTokens then some (acc ++ [pre])
            else (character_based_split cfg pre).map (fun cs => acc ++ cs)
          match accPre with
          | none => none
          | some acc2 =>
            let remaining_after := remainder.drop tec
            if remaining_after ≠ [] then
              let post_end := min remaining_after.length (cfg.pct30 remaining_after.length)
              let table_chunk := slice remainder tsc (tec + post_end)
              if table_chunk ≠ [] then
                scwtiLoop cfg tableSub f (acc2 ++ [table_chunk])
                  (remaining_after.drop post_end)
              else scwtiLoop cfg tableSub f acc2 remaining_after
            else scwtiLoop cfg tableSub f acc2 []

/-- `TableAwareTextSplitter._split_context_with_table_intact` (table
position relative to `context_text`), including the final
`[chunk for chunk in chunks if chunk.strip()]`. -/
def split_context_with_table_intact (cfg : Cfg) (context_text : List Char)
    (rs re : Nat) : Option (List (List Char)) :=
  (scwtiLoop cfg (slice context_text rs re) (context_text.length + 2) [] context_text).map
    (List.filter (fun c => !(pyStrip c).isEmpty))

/-- `TableAwareTextSplitter._extract_context_window`: a symmetric
`context_tokens * 4` character window around the table. -/
def extract_context_window (text : List Char) (ts te context_tokens : Nat) :
    Nat × Nat × List Char :=
  let context_chars := context_tokens * 4
  let pre_start := ts - context_chars
  let post_end := min text.length (te + context_chars)
  (pre_start, post_end,
    slice text pre_start ts ++ slice text ts te ++ slice text te post_end)

/-- The per-region loop of `_split_text_around_tables`: split any text
before the context window, then either emit table+context as one chunk
(when it fits) or split the window around the table. -/
def staLoop (cfg : Cfg) (text : List Char) :
    List (Nat × Nat) → Nat → List (List Char) → Option (List (List Char))
  | [], processed, acc =>
    if processed < text.length then
      let remaining := pyStrip (text.drop processed)
      if remaining ≠ [] then (character_based_split cfg remaining).map (fun cs => acc ++ cs)
      else some acc
    else some acc
  | (ts, te) :: rest, processed, acc =>
    let cw := extract_context_window text ts te cfg.contextWindowTokens
    let accPre : Option (List (List Char)) :=
      if cw.1 > processed then
        let pre := pyStrip (slice text processed cw.1)
        if pre ≠ [] then (character_based_split cfg pre).map (fun cs => acc ++ cs)
        else some acc
      else some acc
    match accPre with
    | none => none
    | some acc1 =>
      if cfg.count cw.2.2 ≤ cfg.maxTokens then
        staLoop cfg text rest cw.2.1 (acc1 ++ [cw.2.2])
      else
        match split_context_with_table_intact cfg cw.2.2 (ts - cw.1) (te - cw.1) with
        | none => none
        | some cks => staLoop cfg text rest cw.2.1 (acc1 ++ cks)

/-- `TableAwareTextSplitter._split_text_around_tables`, with the table
regions found by `_find_all_table_regions` passed in explicitly
(the detection itself is the Python regex alternation over
`self.table_patterns`, run with `DOTALL | IGNORECASE | MULTILINE`). -/
def split_text_around_tables (cfg : Cfg) (regions : List (Nat × Nat))
    (text : List Char) : Option (List (List Char)) :=
  if regions.isEmpty then character_based_split cfg text
  else staLoop cfg text regions 0 []

/-- `TableAwareTextSplitter.split_text` (its `try` body;
`split_text_around_tables` raises nothing on the inputs below, so the
character-split fallback of the `except` clause is never taken). -/
def split_text (cfg : Cfg) (regions : List (Nat × Nat)) (text : List Char) :
    Option (List (List Char)) :=
  split_text_around_tables cfg regions text

/-- The input of the table-preservation scenario:
`"| A | B |\n|---|---|\n| 1 | 2 |"` (29 characters, no trailing
newline). -/
def c2text : List Char := "| A | B |\n|---|---|\n| 1 | 2 |".data

/-- A configuration with `max_tokens = 3`, strictly below the token
count of `c2text` under the character fallback counter
(`29 // 4 = 7`): tokenizer fallback `len // 4`, truncation fallback
`text[:max_tokens * 4]`, exact-arithmetic stand-ins for the two float
expressions (neither is reached on `c2text`). -/
def c2cfg : Cfg :=
  { maxTokens := 3, contextWindowTokens := 200,
    count := fun l => l.length / 4,
    truncate := fun l => l.take 12,
    fill80 := fun tc => decide (5 * tc ≥ 4 * 3),
    pct30 := fun n => 3 * n / 10 }

end Splitter

/-! ## Theorems -/

section Theorems

open ChatCache Reconciler Consumer Producer Splitter

/-- Shared helper: a `filterMap` whose function is total on the list is
a `map`. -/
theorem filterMap_eq_map_of_forall_some {α β : Type} (f : α → Option β) (g : α → β)
    (l : List α) (h : ∀ a ∈ l, f a = some (g a)) : l.filterMap f = l.map g := by
  induction l with
  | nil => rfl
  | cons a t ih =>
    rw [List.filterMap_cons, h a (by simp), List.map_cons,
      ih (fun x hx => h x (by simp [hx]))]

/-- After one `invalidate_cache_by_resource_id` pass, no stored pair
matches the same resource id any more. -/
theorem inv_no_matches_after (s : ChatCache.Store) (rid : String) :
    ((invalidate_cache_by_resource_id rid s).1).filter (inv_matches rid) = [] := by
  unfold invalidate_cache_by_resource_id
  by_cases h : (inv_keys rid s).isEmpty
  · rw [if_pos h]
    unfold inv_keys at h
    rw [List.isEmpty_iff] at h
    exact List.map_eq_nil_iff.mp h
  · rw [if_neg h]
    rw [List.filter_eq_nil_iff]
    intro kv hkv hm
    obtain ⟨hmem, hnc⟩ := List.mem_filter.mp hkv
    have hin : kv ∈ s.filter (inv_matches rid) := List.mem_filter.mpr ⟨hmem, hm⟩
    have hkey : kv.1 ∈ inv_keys rid s := List.mem_map_of_mem _ hin
    simp only [Bool.not_eq_true', ← Bool.not_eq_true] at hnc
    exact hnc (by simpa using hkey)

/-- C9.  `invalidate_cache_by_resource_id` is idempotent: the second
call with the same resource id finds no matching entries, deletes zero
keys and leaves the store unchanged. -/
theorem c9_invalidate_idempotent (s : ChatCache.Store) (rid : String) :
    invalidate_cache_by_resource_id rid (invalidate_cache_by_resource_id rid s).1
      = ((invalidate_cache_by_resource_id rid s).1, 0) := by
  have hnil : inv_keys rid (invalidate_cache_by_resource_id rid s).1 = [] := by
    unfold inv_keys
    rw [inv_no_matches_after s rid]
    rfl
  conv_lhs => rw [invalidate_cache_by_resource_id]
  rw [hnil]
  simp

theorem check_access_adminEntry (uid : String) (roles : List String)
    (emb : List Rat) (pl : String) (rids : Option (List String)) :
    (check_access uid roles (adminEntry emb pl rids) = true) ↔
      ("admin" ∈ roles ∨ uid = "u1") := by
  unfold check_access adminEntry
  simp [List.any_eq_true]

/-- Helper: the soft-match result over a single-entry store. -/
theorem soft_match_single (simOK : List Rat → List Rat → Bool) (qe : List Rat)
    (uid : String) (roles : List String) (k : String) (e : Entry)
    (hk : startswith k cachePre = true) :
    soft_match simOK qe uid roles [(k, .entry e)]
      = if ((e.embedding.getD []).any (fun x => decide (x ≠ 0))
            && (simOK qe (e.embedding.getD []) && check_access uid roles e)) = true
        then some e else none := by
  unfold soft_match
  simp only [hk, if_true, truthy]
  cases hany : (e.embedding.getD []).any (fun x => decide (x ≠ 0)) with
  | false => simp [hany, soft_match]
  | true =>
    cases hsc : simOK qe (e.embedding.getD []) && check_access uid roles e with
    | false => simp [hany, hsc, soft_match]
    | true => simp [hany, hsc]

/-- C6.  For a cached entry with `is_org_wide=false`,
`allowed_roles=["admin"]`, `allowed_user_ids=["u1"]`: the access check
passes exactly for callers with role `"admin"` or id `"u1"`; on the
exact-key path the entry is returned iff the caller passes (and an
access-denied exact hit falls through to the soft scan, here returning
`none` rather than erroring); on the soft-match path (entry under a
different key, similarity accepted) the entry is likewise returned iff
the caller passes. -/
theorem c6_access_control (uid : String) (roles : List String)
    (emb qe : List Rat) (pl : String) (rids : Option (List String))
    (ck k2 : String) (simOK : List Rat → List Rat → Bool)
    (hck : startswith ck cachePre = true)
    (hk2 : startswith k2 cachePre = true) (hne : k2 ≠ ck)
    (hemb : emb.any (fun x => decide (x ≠ 0)) = true)
    (hsim : simOK qe emb = true) :
    ((check_access uid roles (adminEntry emb pl rids) = true) ↔
      ("admin" ∈ roles ∨ uid = "u1"))
    ∧ get_conversation (fun _ _ => false) [(ck, .entry (adminEntry emb pl rids))]
        ck qe uid roles
      = .ok (if "admin" ∈ roles ∨ uid = "u1" then some (adminEntry emb pl rids) else none)
    ∧ get_conversation simOK [(k2, .entry (adminEntry emb pl rids))] ck qe uid roles
      = .ok (if "admin" ∈ roles ∨ uid = "u1" then some (adminEntry emb pl rids) else none) := by
  have hiff := check_access_adminEntry uid roles emb pl rids
  have hembE : (adminEntry emb pl rids).embedding.getD [] = emb := rfl
  refine ⟨hiff, ?_, ?_⟩
  · have hget : redis_get [(ck, RVal.entry (adminEntry emb pl rids))] ck
        = some (.entry (adminEntry emb pl rids)) := by
      simp [redis_get]
    by_cases hacc : "admin" ∈ roles ∨ uid = "u1"
    · have hca : check_access uid roles (adminEntry emb pl rids) = true := hiff.mpr hacc
      simp [get_conversation, hget, truthy, hca, hacc]
    · have hca : check_access uid roles (adminEntry emb pl rids) = false := by
        rw [← Bool.not_eq_true]
        exact fun hc => hacc (hiff.mp hc)
      rw [if_neg hacc]
      simp only [get_conversation, hget, truthy, hca]
      rw [soft_match_single _ _ _ _ _ _ hck, hembE]
      simp [hca]
  · have hbe : (k2 == ck) = false := by simpa using hne
    have hget : redis_get [(k2, RVal.entry (adminEntry emb pl rids))] ck = none := by
      simp [redis_get, List.find?, hbe]
    by_cases hacc : "admin" ∈ roles ∨ uid = "u1"
    · have hca : check_access uid roles (adminEntry emb pl rids) = true := hiff.mpr hacc
      rw [if_pos hacc]
      simp only [get_conversation, hget]
      rw [soft_match_single _ _ _ _ _ _ hk2, hembE, hemb, hsim, hca]
      simp
    · have hca : check_access uid roles (adminEntry emb pl rids) = false := by
        rw [← Bool.not_eq_true]
        exact fun hc => hacc (hiff.mp hc)
      rw [if_neg hacc]
      simp only [get_conversation, hget]
      rw [soft_match_single _ _ _ _ _ _ hk2, hembE, hemb, hsim, hca]
      simp

/-- Witness for C6 at a concrete caller, entry and store. -/
theorem c6_access_control_witness :
    ((check_access "u1" [] (adminEntry [1] "" none) = true) ↔
      ("admin" ∈ ([] : List String) ∨ "u1" = "u1"))
    ∧ get_conversation (fun _ _ => false)
        [("chatcache:a", .entry (adminEntry [1] "" none))] "chatcache:a" [1] "u1" []
      = .ok (if "admin" ∈ ([] : List String) ∨ "u1" = "u1"
             then some (adminEntry [1] "" none) else none)
    ∧ get_conversation (fun _ _ => true)
        [("chatcache:b", .entry (adminEntry [1] "" none))] "chatcache:a" [1] "u1" []
      = .ok (if "admin" ∈ ([] : List String) ∨ "u1" = "u1"
             then some (adminEntry [1] "" none) else none) :=
  c6_access_control "u1" [] [1] [1] "" none "chatcache:a" "chatcache:b"
    (fun _ _ => true) (by rfl) (by rfl) (by decide) (by rfl) (by rfl)

/-- C7 counterexample.  A malformed payload sitting at the exact cache
key makes `get_conversation` raise (the exact-path `json.loads` is not
wrapped in `try`), contradicting the claim that cache-layer errors
never cross the query boundary. -/
theorem c7_counterexample :
    get_conversation (fun _ _ => true) [("chatcache:k", .malformed)]
      "chatcache:k" [] "u" [] = .error () := by rfl

/-- C7 amended.  As long as the value at the exact key (if any) is not
a malformed payload, `get_conversation` never raises: the soft-match
scan swallows every malformed entry (`except Exception: continue`) and
the function returns `.ok` — `none` or a matching entry. -/
theorem c7_soft_path_never_raises (simOK : List Rat → List Rat → Bool)
    (s : ChatCache.Store) (ck : String) (qe : List Rat)
    (uid : String) (roles : List String)
    (h : redis_get s ck ≠ some .malformed) :
    ∃ r, get_conversation simOK s ck qe uid roles = .ok r := by
  cases hv : redis_get s ck with
  | none =>
    refine ⟨soft_match simOK qe uid roles s, ?_⟩
    simp only [get_conversation, hv]
  | some v =>
    cases v with
    | emptyVal =>
      refine ⟨soft_match simOK qe uid roles s, ?_⟩
      simp only [get_conversation, hv]
      rfl
    | malformed => exact absurd hv h
    | entry e =>
      by_cases hca : check_access uid roles e = true
      · refine ⟨some e, ?_⟩
        simp only [get_conversation, hv]
        simp [truthy, hca]
      · rw [Bool.not_eq_true] at hca
        refine ⟨soft_match simOK qe uid roles s, ?_⟩
        simp only [get_conversation, hv]
        simp [truthy, hca]

/-- Witness for C7 amended: an empty store raises nothing. -/
theorem c7_soft_path_never_raises_witness :
    ∃ r, get_conversation (fun _ _ => true) [] "chatcache:k" [] "u" [] = .ok r :=
  c7_soft_path_never_raises (fun _ _ => true) [] "chatcache:k" [] "u" []
    (by simp [redis_get])

/-- Any entry carrying none of the access-scope keys fails the access
check for every caller. -/
theorem check_access_scopeless (uid : String) (roles : List String) (e : Entry)
    (h1 : e.is_org_wide = none) (h2 : e.allowed_roles = none)
    (h3 : e.allowed_user_ids = none) :
    check_access uid roles e = false := by
  unfold check_access
  rw [h1, h2, h3]
  simp

/-- The soft-match scan returns nothing over a store of scopeless
entries. -/
theorem soft_match_scopeless (simOK : List Rat → List Rat → Bool)
    (qe : List Rat) (uid : String) (roles : List String) :
    ∀ s : ChatCache.Store, (∀ kv ∈ s, scopeless kv.2) →
      soft_match simOK qe uid roles s = none := by
  intro s
  induction s with
  | nil => intro _; rfl
  | cons kv rest ih =>
    intro h
    obtain ⟨e, hv, h1, h2, h3⟩ := h kv (by simp)
    obtain ⟨k, v⟩ := kv
    dsimp at hv
    subst hv
    have hca := check_access_scopeless uid roles e h1 h2 h3
    have hrest : soft_match simOK qe uid roles rest = none :=
      ih (fun kv hkv => h kv (by simp [hkv]))
    unfold soft_match
    simp [truthy, hca, hrest]

/-- C10.  Entries written by `set_conversation` with conversation data
lacking the access-scope keys are unreachable: (1) such an entry fails
the access check for every caller; (2) `set_conversation` with the
default empty payload preserves an all-scopeless store; (3) over an
all-scopeless store, `get_conversation` returns `none` for every
caller, on both the exact-key and soft-match paths. -/
theorem c10_scopeless_entries_unreachable :
    (∀ (uid : String) (roles : List String) (data : Entry) (emb : List Rat),
      data.is_org_wide = none → data.allowed_roles = none →
      data.allowed_user_ids = none →
      check_access uid roles (stored_entry data emb) = false)
    ∧ (∀ (s : ChatCache.Store) (ck : String) (emb : List Rat),
      (∀ kv ∈ s, scopeless kv.2) →
      ∀ kv ∈ set_conversation s ck none emb, scopeless kv.2)
    ∧ (∀ (simOK : List Rat → List Rat → Bool) (s : ChatCache.Store) (ck : String)
        (qe : List Rat) (uid : String) (roles : List String),
      (∀ kv ∈ s, scopeless kv.2) →
      get_conversation simOK s ck qe uid roles = .ok none) := by
  refine ⟨?_, ?_, ?_⟩
  · intro uid roles data emb h1 h2 h3
    exact check_access_scopeless uid roles _ h1 h2 h3
  · intro s ck emb h kv hkv
    have hnew : scopeless (RVal.entry
        (stored_entry ((none : Option Entry).getD empty_conversation_data) emb)) :=
      ⟨_, rfl, rfl, rfl, rfl⟩
    unfold set_conversation redis_set at hkv
    by_cases hf : (List.find? (fun kv => kv.1 == ck) s).isSome
    · rw [if_pos hf] at hkv
      obtain ⟨kv0, hkv0, hmap⟩ := List.mem_map.mp hkv
      by_cases he : kv0.1 == ck
      · rw [if_pos he] at hmap
        rw [← hmap]
        exact hnew
      · rw [if_neg he] at hmap
        rw [← hmap]
        exact h kv0 hkv0
    · rw [if_neg hf] at hkv
      rcases List.mem_append.mp hkv with hold | hnewm
      · exact h kv hold
      · rw [List.mem_singleton.mp hnewm]
        exact hnew
  · intro simOK s ck qe uid roles h
    have hsoft := soft_match_scopeless simOK qe uid roles s h
    cases hv : redis_get s ck with
    | none => simp only [get_conversation, hv, hsoft]
    | some v =>
      obtain ⟨kv0, hfind, hv2⟩ := Option.map_eq_some'.mp hv
      have hmem : kv0 ∈ s := List.mem_of_find?_eq_some hfind
      obtain ⟨e, hve, h1, h2, h3⟩ := h kv0 hmem
      rw [hv2] at hve
      subst hve
      have hca := check_access_scopeless uid roles e h1 h2 h3
      simp only [get_conversation, hv]
      simp [truthy, hca, hsoft]

/-- Witness for C10 part 3 at a concrete scopeless store. -/
theorem c10_scopeless_entries_unreachable_witness :
    get_conversation (fun _ _ => true)
      [("chatcache:k", .entry (stored_entry empty_conversation_data [1]))]
      "chatcache:k" [1] "u9" ["admin"] = .ok none :=
  c10_scopeless_entries_unreachable.2.2 (fun _ _ => true)
    [("chatcache:k", .entry (stored_entry empty_conversation_data [1]))]
    "chatcache:k" [1] "u9" ["admin"]
    (by intro kv hkv
        rw [List.mem_singleton.mp hkv]
        exact ⟨_, rfl, rfl, rfl, rfl⟩)

/-- C1.  A recognized lifecycle message (`upload_resource`, dispatched
through `_process_message_sync`) and a recognized embedding message
(`embedding_response`, in `EVENTS`) whose handlers fail are both
ACKNOWLEDGED, not rejected: the handler exception reaches the
`process_message` dispatch boundary (`process_message_try` = raised),
but the `return` in that function's `finally` clause swallows the
re-raised exception, so the consumer callback never sees it and calls
`basic_ack`.  The third and fourth conjuncts exhibit the swallowed
failure. -/
theorem c1_handler_exception_gets_acked :
    Consumer.callback Consumer.svcRaises true (some Consumer.uploadMsg)
        = Consumer.Action.ack
    ∧ Consumer.callback Consumer.svcRaises false (some Consumer.embedMsg)
        = Consumer.Action.ack
    ∧ Consumer.process_message_try Consumer.svcRaises true Consumer.uploadMsg
        = Consumer.Outcome.exn
    ∧ Consumer.process_message Consumer.svcRaises true Consumer.uploadMsg = false :=
  ⟨rfl, rfl, rfl, rfl⟩

/-- C2.  On the pure-table input `"| A | B |\n|---|---|\n| 1 | 2 |"`
(29 characters) the combined detection regex matches the whole string
as a single table region — pattern 5,
`(?:^\|.*\|.*$[\r\n]*)+` with `DOTALL`/`MULTILINE`, matches from
position 0 to the end (patterns 1–4 fail for lack of a trailing
newline), so `_find_all_table_regions` yields `[(0, 29)]`.  With
`max_tokens = 3` strictly below the table's 7 fallback tokens,
`split_text` returns NO chunks at all: `_split_context_with_table_intact`
hits the branch where the table alone exceeds the budget and nothing
follows the table, and clears the remainder without ever appending the
table chunk.  The claimed single whole-table chunk is not produced —
the table is silently dropped. -/
theorem c2_table_dropped :
    Splitter.split_text Splitter.c2cfg [(0, 29)] Splitter.c2text = some []
    ∧ Splitter.c2cfg.count Splitter.c2text = 7
    ∧ Splitter.c2cfg.maxTokens = 3
    ∧ Splitter.c2text.length = 29 :=
  ⟨rfl, rfl, rfl, rfl⟩

/-- C8.  `publish_message` never lets an exception escape (every branch
returns `.ok`), and when a channel was available but `basic_publish`
failed, the resulting state has the channel discarded (`None`) and the
connection manager closed and re-initialized, so the next call goes
through the lazy-reconnect path of `get_channel`. -/
theorem c8_publish_fire_and_forget (env : Producer.Env) (p : Producer.ProdSt) :
    (∃ p2, Producer.publish_message env p = .ok p2)
    ∧ (∀ c, (Producer.get_channel env p).2 = some c → env.publishOk = false →
        Producer.publish_message env p
          = .ok { cm := Producer.conn_initialize env
                    (Producer.conn_close (Producer.get_channel env p).1.cm),
                  channel := none }) := by
  constructor
  · unfold Producer.publish_message
    dsimp only
    cases hch : (Producer.get_channel env p).2 with
    | none => exact ⟨_, rfl⟩
    | some c =>
      cases hpub : env.publishOk with
      | true => exact ⟨(Producer.get_channel env p).1, by simp⟩
      | false =>
        exact ⟨{ cm := Producer.conn_initialize env
                   (Producer.conn_close (Producer.get_channel env p).1.cm),
                 channel := none }, by simp⟩
  · intro c hch hpub
    unfold Producer.publish_message
    dsimp only
    rw [hch, hpub]
    simp

/-- Witness for C8: broker reachable, publish fails; the producer ends
with no channel and a freshly re-initialized connection. -/
theorem c8_publish_fire_and_forget_witness :
    Producer.publish_message ⟨true, true, true, false⟩
      ⟨⟨none, false⟩, none⟩
      = .ok ⟨⟨some false, true⟩, none⟩ := by
  have h := (c8_publish_fire_and_forget ⟨true, true, true, false⟩
    ⟨⟨none, false⟩, none⟩).2 false rfl rfl
  exact h

theorem getD_mem_of_lt {α : Type} (l : List α) (d : α) (i : Nat) (h : i < l.length) :
    l.getD i d ∈ l := by
  rw [List.getD_eq_getElem?_getD, List.getElem?_eq_getElem h]
  exact List.getElem_mem h

theorem store_eval (uuidGen : Nat → String) (freshRid : String) (ts : Nat)
    (es : List (List Rat)) (cs : List String) (rid : Option String)
    (fn fp : Option String) (meta : Option MetaD)
    (hes : es ≠ []) (hcs : cs ≠ []) (hvec : ∀ v ∈ es, v ≠ []) :
    store true uuidGen freshRid ts es cs rid fn fp meta
      = .ok (min es.length cs.length,
          (List.range (min es.length cs.length)).map
            (store_point uuidGen ts (resolve_rid rid freshRid) fn fp meta es cs
              (min es.length cs.length))) := by
  have hese : es.isEmpty = false := by simp [hes]
  have hcse : cs.isEmpty = false := by simp [hcs]
  unfold store
  rw [hese, hcse]
  dsimp only
  rw [filterMap_eq_map_of_forall_some _
    (store_point uuidGen ts (resolve_rid rid freshRid) fn fp meta es cs
      (min es.length cs.length)) _ ?hall]
  case hall =>
    intro i hi
    rw [List.mem_range] at hi
    have hlt : i < es.length := lt_of_lt_of_le hi (Nat.min_le_left _ _)
    have hne : es.getD i [] ≠ [] := hvec _ (getD_mem_of_lt es [] i hlt)
    rw [if_neg (by simpa using hne)]
  have hmin : 0 < min es.length cs.length := by
    apply Nat.lt_min.mpr
    exact ⟨List.length_pos.mpr hes, List.length_pos.mpr hcs⟩
  have hnonempty : ((List.range (min es.length cs.length)).map
      (store_point uuidGen ts (resolve_rid rid freshRid) fn fp meta es cs
        (min es.length cs.length))).isEmpty = false := by
    simp [List.isEmpty_iff, List.map_eq_nil_iff, List.range_eq_nil]
    exact ⟨hes, hcs⟩
  rw [hnonempty]
  simp

theorem map_fst_zip_take {α β : Type} : ∀ (l1 : List α) (l2 : List β),
    (l1.zip l2).map Prod.fst = l1.take l2.length := by
  intro l1
  induction l1 with
  | nil => intro l2; simp
  | cons a t ih =>
    intro l2
    cases l2 with
    | nil => simp
    | cons b u => simp [ih u]

theorem map_snd_zip_take {α β : Type} : ∀ (l1 : List α) (l2 : List β),
    (l1.zip l2).map Prod.snd = l2.take l1.length := by
  intro l1
  induction l1 with
  | nil => intro l2; simp
  | cons a t ih =>
    intro l2
    cases l2 with
    | nil => simp
    | cons b u => simp [ih u]

/-- With a homogeneous key set the checked sort succeeds and returns
the sorted order. -/
theorem sort_checked_of_not_mixed (l : List (String × ChunkVal))
    (h : keys_mixed l = false) :
    sort_chunk_items_checked l = .ok (sort_chunk_items l) := by
  unfold sort_chunk_items_checked
  rw [if_neg (by simp [h])]

/-- C5 counterexample.  A response with the empty string as status:
lower-cased it is `""` — neither success nor partial — so the claim
predicts rejection with no upsert; but `status or "success"` treats the
falsy empty string as success, and the code persists 2 points and
returns `True`. -/
theorem c5_counterexample :
    (pyLower resp5.status ≠ "success" ∧ pyLower resp5.status ≠ "partial")
    ∧ (process_embedding_response true (fun _ => "p") "f" 7 resp5).1 = true
    ∧ (process_embedding_response true (fun _ => "p") "f" 7 resp5).2.length = 2 :=
  ⟨by decide, rfl, rfl⟩

/-- C5 amended.  An embedding result whose EFFECTIVE lower-cased status
(`status or "success"`: a falsy status defaults to success) is neither
success nor partial, or whose embeddings list or chunk map is empty, is
rejected: `process_embedding_response` returns `False` and upserts
nothing (the returned point list is empty), for any upsert outcome. -/
theorem c5_invalid_response_rejected (upsertOk : Bool) (uuidGen : Nat → String)
    (freshRid : String) (ts : Nat) (r : EmbeddingResp)
    (h : ¬(pyLower (if r.status = "" then "success" else r.status) = "success"
           ∨ pyLower (if r.status = "" then "success" else r.status) = "partial")
       ∨ r.embeddings = [] ∨ r.chunks = []) :
    process_embedding_response upsertOk uuidGen freshRid ts r = (false, []) := by
  unfold process_embedding_response
  dsimp only
  by_cases hst : ¬(pyLower (if r.status = "" then "success" else r.status) = "success"
      ∨ pyLower (if r.status = "" then "success" else r.status) = "partial")
  · rw [if_pos hst]
  · rw [if_neg hst]
    by_cases hmix : keys_mixed r.chunks = true
    · rw [show sort_chunk_items_checked r.chunks = .error () from by
        unfold sort_chunk_items_checked
        rw [if_pos hmix]]
    · rw [Bool.not_eq_true] at hmix
      rw [sort_checked_of_not_mixed r.chunks hmix]
      dsimp only
      rcases h with hbad | hemb | hch
      · exact absurd hbad hst
      · rw [if_pos (Or.inl (by simp [hemb]))]
      · rw [if_pos (Or.inr (by simp [hch, sort_chunk_items]))]

/-- Witness for C5: a failed-status response is rejected with no
upsert. -/
theorem c5_witness :
    process_embedding_response true (fun _ => "p") "f" 7
      { resp3 with status := "failed" } = (false, []) :=
  c5_invalid_response_rejected true (fun _ => "p") "f" 7 _ (Or.inl (by decide))

theorem digitChar_facts (d : Nat) (h : d < 10) :
    (digitChar d).toNat - 48 = d ∧ Char.isDigit (digitChar d) = true := by
  interval_cases d <;> exact ⟨by decide, by decide⟩

theorem decDigits_spec : ∀ fuel n, n < fuel →
    (decDigits fuel n ≠ [] ∧ (decDigits fuel n).all Char.isDigit = true
      ∧ digitsVal (decDigits fuel n) = n) := by
  intro fuel
  induction fuel with
  | zero => intro n h; omega
  | succ f ih =>
    intro n h
    by_cases h10 : n < 10
    · refine ⟨by simp [decDigits, h10], ?_, ?_⟩
      · simp [decDigits, h10, (digitChar_facts n h10).2]
      · simp [decDigits, h10, digitsVal, (digitChar_facts n h10).1]
    · have hn0 : 0 < n := by omega
      have hrec : n / 10 < f := by omega
      obtain ⟨hne, hall, hval⟩ := ih (n / 10) hrec
      rw [show decDigits (f + 1) n
          = decDigits f (n / 10) ++ [digitChar (n % 10)] by simp [decDigits, h10]]
      refine ⟨by simp, ?_, ?_⟩
      · rw [List.all_append, hall]
        simp [(digitChar_facts (n % 10) (Nat.mod_lt n (by omega))).2]
      · unfold digitsVal
        rw [List.foldl_append]
        have := (digitChar_facts (n % 10) (Nat.mod_lt n (by omega))).1
        simp only [List.foldl_cons, List.foldl_nil]
        rw [this]
        unfold digitsVal at hval
        rw [hval]
        omega

theorem pyKey_decStr (n : Nat) : pyKey (decStr n) = .inl n := by
  obtain ⟨hne, hall, hval⟩ := decDigits_spec (n + 1) n (by omega)
  have hcond : (decStr n ≠ "" ∧ (decStr n).data.all Char.isDigit) := by
    constructor
    · intro hc
      exact hne (congrArg String.data hc)
    · exact hall
  unfold pyKey
  rw [if_pos hcond]
  exact congrArg Sum.inl hval

/-- A permutation of a canonical (all-digit-keyed) chunk map has no
mixed keys: its key sort succeeds. -/
theorem perm_canonical_not_mixed (N : Nat) (c : Nat → ChunkVal)
    (l : List (String × ChunkVal)) (hperm : l.Perm (canonical_chunks N c)) :
    keys_mixed l = false := by
  unfold keys_mixed
  have hr : l.any (fun it => (pyKey it.1).isRight) = false := by
    rw [← Bool.not_eq_true, List.any_eq_true]
    rintro ⟨it, hmem, hright⟩
    have hmem2 : it ∈ canonical_chunks N c := hperm.mem_iff.mp hmem
    unfold canonical_chunks at hmem2
    obtain ⟨i, _, hi⟩ := List.mem_map.mp hmem2
    have hkey : pyKey it.1 = Sum.inl i := by
      rw [← hi]
      exact pyKey_decStr i
    rw [hkey] at hright
    simp at hright
  rw [hr]
  simp

theorem keyLeB_antisymm {x y : Nat ⊕ String} (h1 : keyLeB x y = true)
    (h2 : keyLeB y x = true) : x = y := by
  cases x with
  | inl a =>
    cases y with
    | inl b =>
      simp [keyLeB] at h1 h2
      exact congrArg Sum.inl (le_antisymm h1 h2)
    | inr t => simp [keyLeB] at h2
  | inr s =>
    cases y with
    | inl b => simp [keyLeB] at h1
    | inr t =>
      simp [keyLeB] at h1 h2
      have hd := le_antisymm h1 h2
      cases s
      cases t
      exact congrArg (fun d => Sum.inr (String.mk d)) hd

theorem itemLeS_antisymm (a b : String × ChunkVal)
    (h1 : itemLeS a b) (h2 : itemLeS b a) : a = b := by
  obtain ⟨hle1, hd1⟩ := h1
  obtain ⟨hle2, hd2⟩ := h2
  rcases hd1 with hne | heq
  · rcases hd2 with hne2 | heq2
    · exact absurd (keyLeB_antisymm hle1 hle2) hne
    · exact heq2.symm
  · exact heq

theorem canonical_sorted (N : Nat) (c : Nat → ChunkVal) :
    List.Sorted itemLe (canonical_chunks N c) := by
  unfold canonical_chunks List.Sorted
  rw [List.pairwise_map]
  apply (List.pairwise_lt_range N).imp
  intro i j hij
  unfold itemLe
  rw [pyKey_decStr, pyKey_decStr]
  simpa [keyLeB] using Nat.le_of_lt hij

theorem canonical_keys_nodup (N : Nat) (c : Nat → ChunkVal) :
    ((canonical_chunks N c).map (fun p => pyKey p.1)).Nodup := by
  unfold canonical_chunks
  rw [List.map_map]
  rw [show ((fun p : String × ChunkVal => pyKey p.1) ∘ fun i => (decStr i, c i))
      = fun i => Sum.inl i from funext fun i => pyKey_decStr i]
  exact (List.nodup_range N).map Sum.inl_injective

theorem sorted_strengthen {l : List (String × ChunkVal)}
    (hs : List.Sorted itemLe l) (hn : (l.map (fun p => pyKey p.1)).Nodup) :
    List.Sorted itemLeS l := by
  unfold List.Sorted at *
  have hne : l.Pairwise (fun a b => pyKey a.1 ≠ pyKey b.1) :=
    (List.pairwise_map.mp hn)
  exact (hs.and hne).imp (fun h => ⟨h.1, Or.inl h.2⟩)

theorem sort_recovers (N : Nat) (c : Nat → ChunkVal)
    (l : List (String × ChunkVal))
    (hperm : l.Perm (canonical_chunks N c)) :
    sort_chunk_items l = canonical_chunks N c := by
  have hperm2 : (sort_chunk_items l).Perm (canonical_chunks N c) :=
    (List.perm_insertionSort itemLe l).trans hperm
  have hs1 : List.Sorted itemLe (sort_chunk_items l) :=
    List.sorted_insertionSort itemLe l
  have hs2 := canonical_sorted N c
  have hn2 := canonical_keys_nodup N c
  have hn1 : ((sort_chunk_items l).map (fun p => pyKey p.1)).Nodup :=
    ((hperm2.map _).nodup_iff).mpr hn2
  haveI : IsAntisymm (String × ChunkVal) itemLeS := ⟨itemLeS_antisymm⟩
  exact List.eq_of_perm_of_sorted hperm2
    (sorted_strengthen hs1 hn1) (sorted_strengthen hs2 hn2)

/-- C4.  For `N >= 1` embeddings (all non-empty) and a chunk map that
is some permutation of the canonical map with decimal keys
`"0" … "N-1"`, reconciliation succeeds with exactly the `N` points
obtained by numeric key sort: the point at position `i` is built from
the chunk with key `str(i)` and carries `chunk_index = i`,
`total_chunks = N`, and that chunk's text — the numeric sort of chunk
keys recovers the original order. -/
theorem c4_round_trip (uuidGen : Nat → String) (freshRid : String) (ts : Nat)
    (N : Nat) (hN : 1 ≤ N) (c : Nat → ChunkVal) (r : EmbeddingResp)
    (hst : r.status = "success")
    (hlen : r.embeddings.length = N)
    (hvec : ∀ v ∈ r.embeddings, v ≠ [])
    (hperm : r.chunks.Perm (canonical_chunks N c)) :
    process_embedding_response true uuidGen freshRid ts r
      = (true, (List.range N).map
          (store_point uuidGen ts (resolve_rid (some r.resource_id) freshRid)
            r.file_name r.file_path (some (mkMeta r))
            r.embeddings ((List.range N).map (fun j => chunk_text_value (c j))) N))
    ∧ ∀ i, i < N →
        (store_point uuidGen ts (resolve_rid (some r.resource_id) freshRid)
            r.file_name r.file_path (some (mkMeta r))
            r.embeddings ((List.range N).map (fun j => chunk_text_value (c j))) N i).chunk_index = i
        ∧ (store_point uuidGen ts (resolve_rid (some r.resource_id) freshRid)
            r.file_name r.file_path (some (mkMeta r))
            r.embeddings ((List.range N).map (fun j => chunk_text_value (c j))) N i).total_chunks = N
        ∧ (store_point uuidGen ts (resolve_rid (some r.resource_id) freshRid)
            r.file_name r.file_path (some (mkMeta r))
            r.embeddings ((List.range N).map (fun j => chunk_text_value (c j))) N i).text
          = chunk_text_value (c i) := by
  have hsort : sort_chunk_items r.chunks = canonical_chunks N c :=
    sort_recovers N c r.chunks hperm
  have hpay : (sort_chunk_items r.chunks).map (fun it => it.2)
      = (List.range N).map c := by
    rw [hsort]
    unfold canonical_chunks
    rw [List.map_map]
    rfl
  have htexts : ((sort_chunk_items r.chunks).map (fun it => it.2)).map chunk_text_value
      = (List.range N).map (fun j => chunk_text_value (c j)) := by
    rw [hpay, List.map_map]
    rfl
  have htlen : ((List.range N).map (fun j => chunk_text_value (c j))).length = N := by
    rw [List.length_map, List.length_range]
  have hemb : r.embeddings ≠ [] := by
    intro hnil
    rw [hnil] at hlen
    simp at hlen
    omega
  have hmix : keys_mixed r.chunks = false :=
    perm_canonical_not_mixed N c r.chunks hperm
  constructor
  · unfold process_embedding_response
    dsimp only
    rw [if_neg (by rw [show pyLower (if r.status = "" then "success" else r.status)
        = "success" from by rw [hst]; rfl]; simp)]
    rw [sort_checked_of_not_mixed r.chunks hmix]
    dsimp only
    rw [if_neg (by
      rw [hpay]
      simp [hemb, List.isEmpty_iff, List.range_eq_nil]
      omega)]
    unfold store_received_embeddings
    rw [sort_checked_of_not_mixed r.chunks hmix]
    dsimp only
    rw [htexts]
    set texts := (List.range N).map (fun j => chunk_text_value (c j)) with htexts2
    have hfilter : (r.embeddings.zip texts).filter (fun p => !p.1.isEmpty)
        = r.embeddings.zip texts := by
      apply List.filter_eq_self.mpr
      intro p hp
      simpa using hvec _ (List.of_mem_zip hp).1
    rw [hfilter]
    rw [map_fst_zip_take r.embeddings texts, map_snd_zip_take r.embeddings texts]
    rw [htlen, ← hlen, List.take_length]
    rw [show texts.take r.embeddings.length = texts from by
      rw [hlen, ← htlen]
      exact List.take_length texts]
    have hcs : texts ≠ [] := by
      rw [← List.length_pos, htlen]
      omega
    rw [store_eval uuidGen freshRid ts r.embeddings texts (some r.resource_id)
      r.file_name r.file_path (some (mkMeta r)) hemb hcs hvec]
    rw [show min r.embeddings.length texts.length = N from by rw [hlen, htlen]; simp]
    rw [hlen]
    rfl
  · intro i hi
    refine ⟨rfl, rfl, ?_⟩
    unfold store_point
    dsimp only
    rw [List.getD_eq_getElem?_getD, List.getElem?_map, List.getElem?_range hi]
    rfl

/-- Witness for C4: a scrambled 3-chunk map is recovered in order. -/
theorem c4_witness :
    process_embedding_response true (fun _ => "p") "f" 7 resp4
      = (true, (List.range 3).map
          (store_point (fun _ => "p") 7 (resolve_rid (some resp4.resource_id) "f")
            resp4.file_name resp4.file_path (some (mkMeta resp4))
            resp4.embeddings ((List.range 3).map (fun j => chunk_text_value (c4chunk j))) 3)) :=
  (c4_round_trip (fun _ => "p") "f" 7 3 (by decide) c4chunk resp4 rfl (by decide)
    (by decide) (by decide)).1

end Theorems
